import Mathlib

/-! Notes on the embedding.
Shallow embedding of the rinha interpreter (`src/interp.rs`).

The AST types (`Location`, `Var`, `Term`, `BinaryOp`) live in the crate's
`ast` module, which is not part of the sources; their shape is modelled
from the spec's data model (section 3) and from how `interp.rs` consumes
them.  Everything else is translated directly from `src/interp.rs`:

* `Value`, `Context` (the persistent `im::HashMap`, modelled as an
  association list whose only observation is `Context.get`; `update`
  prepends, `union` is left-biased append, matching `im`'s left-biased
  `union`),
* the operator methods on `Value` (`eq`, `neq`, ..., `add`, ..., `rem`),
  where `i64` arithmetic is modelled on `Int` with explicit two's
  complement wrapping (`wrap64`) and the division panics (`/ 0` and
  `MIN / -1`) are modelled as `none`,
* `is_pure`, `cache_key`, `update_context`, `eval_arguments`,
  `memo_eval` and the recursive engine `eval` / `eval_file`,
* the trampoline engine (`Interpreter`, `Bounce`, `Trampoline`): the
  defunctionalised bounce handlers are re-functionalised here
  (`trampStep` has one arm per `bounce_*` function; a returned
  `Trampoline` becomes a plain call, a nested native
  `interpreter.eval(..).run()` becomes a call whose depth result is
  incremented).  The fourth result component is the maximal nesting of
  native `Trampoline::run` invocations: the trampoline loop itself adds
  no nesting, every eager `.run()` inside a handler adds one.  Argument
  evaluation inside `bounce_call` goes through the free function
  `eval_arguments` (the recursive engine), exactly as in the source; its
  own native frames are not counted, so the depth component is a lower
  bound on native stack growth.

Both engines take a fuel parameter (structural recursion on `Nat`): the
Rust functions are partial, and `none` means the fuel ran out (or a
native panic occurred).  Each evaluation step consumes one unit of fuel,
so any terminating run is reproduced by every sufficiently large fuel.
-/

/-- Modelled from the spec: byte range plus filename, used only for error
reporting (`crate::ast::Location`). -/
structure Location where
  start : Nat
  stop : Nat
  filename : String

/-- Modelled from the spec: a variable occurrence (`crate::ast::Var`). -/
structure Var where
  text : String
  location : Location

/-- Modelled from the spec: the binary operators (`crate::ast::BinaryOp`). -/
inductive BinaryOp where
  | eq | neq | lt | lte | gt | gte | and | or | add | sub | mul | div | rem
deriving BEq

/-- Modelled from the spec: the parsed syntax tree (`crate::ast::Term`).
Every variant carries a source `Location`; `lett` is `Term::Let`. -/
inductive Term where
  | lett (name : Var) (value : Term) (next : Term) (location : Location)
  | int (value : Int) (location : Location)
  | str (value : String) (location : Location)
  | bool (value : Bool) (location : Location)
  | function (parameters : List Var) (value : Term) (location : Location)
  | call (callee : Term) (arguments : List Term) (location : Location)
  | if_ (condition : Term) (then_ : Term) (otherwise : Term) (location : Location)
  | binary (lhs : Term) (op : BinaryOp) (rhs : Term) (location : Location)
  | var (v : Var)
  | tuple (first : Term) (second : Term) (location : Location)
  | first (value : Term) (location : Location)
  | second (value : Term) (location : Location)
  | print (value : Term) (location : Location)

/-- The `Term::location()` accessor used by `interp.rs` for error spans. -/
def Term.location : Term → Location
  | .lett _ _ _ location => location
  | .int _ location => location
  | .str _ location => location
  | .bool _ location => location
  | .function _ _ location => location
  | .call _ _ location => location
  | .if_ _ _ _ location => location
  | .binary _ _ _ location => location
  | .var v => v.location
  | .tuple _ _ location => location
  | .first _ location => location
  | .second _ location => location
  | .print _ location => location

/-- Runtime values (`enum Value` in `interp.rs`).  A closure stores its
parameters, body and captured context (`struct Closure`). -/
inductive Value where
  | closure (parameters : List Var) (body : Term) (context : List (String × Value))
  | int (i : Int)
  | str (s : String)
  | bool (b : Bool)
  | tuple (first : Value) (second : Value)

/-- `type Context = im::HashMap<String, Value>`.  The persistent map is
modelled as an association list: `get` returns the first binding, so a
prepended binding shadows older ones exactly like `HashMap::update`. -/
abbrev Context := List (String × Value)

/-- `HashMap::get`: first binding for the name wins. -/
def Context.get : Context → String → Option Value
  | [], _ => none
  | (name, value) :: rest, key => if name = key then some value else Context.get rest key

/-- `HashMap::update`: a new map with one more/updated binding. -/
def Context.update (context : Context) (name : String) (value : Value) : Context :=
  (name, value) :: context

/-- `HashMap::union`: left-biased union, `a`'s bindings win. -/
def Context.union (a b : Context) : Context := a ++ b

/-- `struct RuntimeError { message, full_text, location }`. -/
structure RuntimeError where
  message : String
  full_text : String
  location : Location

/-- `impl Display for Value` (and `impl Display for Tuple`): closures
render as the fixed token, tuples recursively. -/
def Value.display : Value → String
  | .closure _ _ _ => "[closure]"
  | .int i => toString i
  | .str s => s
  | .bool b => toString b
  | .tuple f s => "(" ++ f.display ++ ", " ++ s.display ++ ")"

/-- `impl Hash for Value`: each variant feeds a formatted string into the
hasher; the deterministic hasher is modelled by the string itself
(an injective encoding).  Hashing a closure panics in the source
(`panic!` arm), modelled as `none`.  A tuple hashes through `Display`,
so closures nested inside tuples hash as the token `[closure]`. -/
def Value.hashStr : Value → Option String
  | .closure _ _ _ => none
  | .int i => some ("Int(" ++ toString i ++ ")")
  | .str s => some ("Str(" ++ s ++ ")")
  | .bool b => some ("Bool(" ++ toString b ++ ")")
  | .tuple f s => some ("Tuple(" ++ "(" ++ f.display ++ ", " ++ s.display ++ ")" ++ ")")

/-- Structural equality on locations (the derived `Hash`/`Eq` of the ast
types compare all fields, locations included). -/
def Location.beq (a b : Location) : Bool :=
  a.start == b.start && a.stop == b.stop && a.filename == b.filename

def Var.beq (a b : Var) : Bool :=
  a.text == b.text && a.location.beq b.location

def Var.beqList : List Var → List Var → Bool
  | [], [] => true
  | a :: as_, b :: bs => a.beq b && Var.beqList as_ bs
  | _, _ => false

mutual

/-- Structural equality on terms (the derived `Hash` of `Term` is
structural over the whole tree, locations included; two bodies produce
the same cache key exactly when they are structurally identical). -/
def Term.beq : Term → Term → Bool
  | .lett n1 v1 x1 l1, .lett n2 v2 x2 l2 =>
    n1.beq n2 && Term.beq v1 v2 && Term.beq x1 x2 && l1.beq l2
  | .int v1 l1, .int v2 l2 => v1 == v2 && l1.beq l2
  | .str v1 l1, .str v2 l2 => v1 == v2 && l1.beq l2
  | .bool v1 l1, .bool v2 l2 => v1 == v2 && l1.beq l2
  | .function p1 v1 l1, .function p2 v2 l2 =>
    Var.beqList p1 p2 && Term.beq v1 v2 && l1.beq l2
  | .call c1 a1 l1, .call c2 a2 l2 =>
    Term.beq c1 c2 && Term.beqList a1 a2 && l1.beq l2
  | .if_ c1 t1 o1 l1, .if_ c2 t2 o2 l2 =>
    Term.beq c1 c2 && Term.beq t1 t2 && Term.beq o1 o2 && l1.beq l2
  | .binary lh1 op1 rh1 l1, .binary lh2 op2 rh2 l2 =>
    Term.beq lh1 lh2 && op1 == op2 && Term.beq rh1 rh2 && l1.beq l2
  | .var v1, .var v2 => v1.beq v2
  | .tuple f1 s1 l1, .tuple f2 s2 l2 =>
    Term.beq f1 f2 && Term.beq s1 s2 && l1.beq l2
  | .first v1 l1, .first v2 l2 => Term.beq v1 v2 && l1.beq l2
  | .second v1 l1, .second v2 l2 => Term.beq v1 v2 && l1.beq l2
  | .print v1 l1, .print v2 l2 => Term.beq v1 v2 && l1.beq l2
  | _, _ => false

def Term.beqList : List Term → List Term → Bool
  | [], [] => true
  | a :: as_, b :: bs => Term.beq a b && Term.beqList as_ bs
  | _, _ => false

end

/-- A memoization key: the callee body together with the per-argument
hash strings, in argument order.  The source hashes this pair into a
`u64`-string with the deterministic `DefaultHasher`; the hash is
modelled by the hashed content itself (an injective encoding). -/
abbrev CacheKey := Term × List String

def key_beq : CacheKey → CacheKey → Bool
  | (t1, h1), (t2, h2) => t1.beq t2 && h1 == h2

/-- `type Cache = std::collections::HashMap<String, Value>`, keyed by the
(injectively modelled) hash. -/
abbrev Cache := List (CacheKey × Value)

def Cache.get : Cache → CacheKey → Option Value
  | [], _ => none
  | (k, v) :: rest, key => if key_beq k key then some v else Cache.get rest key

def Cache.insert (cache : Cache) (key : CacheKey) (value : Value) : Cache :=
  (key, value) :: cache

/-- Two's complement wrapping into the `i64` range (release-mode Rust
integer arithmetic). -/
def wrap64 (z : Int) : Int := (z + 2 ^ 63) % 2 ^ 64 - 2 ^ 63

def invalid_comparison (l_value r_value : Value) (location : Location) : RuntimeError :=
  ⟨"invalid comparison", l_value.display ++ " and " ++ r_value.display ++ " cannot be compared", location⟩

/-- `Value::eq`.  Rust compares `bool`, `String`, `i64` with their native
equality; `String` equality agrees with Lean's. -/
def Value.eq (self value : Value) (location : Location) : Option (Except RuntimeError Value) :=
  match self, value with
  | .bool l_bool, .bool r_bool => some (.ok (.bool (l_bool == r_bool)))
  | .str l_str, .str r_str => some (.ok (.bool (l_str == r_str)))
  | .int l_int, .int r_int => some (.ok (.bool (l_int == r_int)))
  | l_value, r_value => some (.error (invalid_comparison l_value r_value location))

def Value.neq (self value : Value) (location : Location) : Option (Except RuntimeError Value) :=
  match self, value with
  | .bool l_bool, .bool r_bool => some (.ok (.bool (l_bool != r_bool)))
  | .str l_str, .str r_str => some (.ok (.bool (l_str != r_str)))
  | .int l_int, .int r_int => some (.ok (.bool (l_int != r_int)))
  | l_value, r_value => some (.error (invalid_comparison l_value r_value location))

/-- `Value::lt`.  Rust's `bool` order has `false < true`; `&str` order is
bytewise, which for UTF-8 agrees with Lean's code-point order. -/
def Value.lt (self value : Value) (location : Location) : Option (Except RuntimeError Value) :=
  match self, value with
  | .bool l_bool, .bool r_bool => some (.ok (.bool (!l_bool && r_bool)))
  | .str l_str, .str r_str => some (.ok (.bool (decide (l_str < r_str))))
  | .int l_int, .int r_int => some (.ok (.bool (decide (l_int < r_int))))
  | l_value, r_value => some (.error (invalid_comparison l_value r_value location))

def Value.lte (self value : Value) (location : Location) : Option (Except RuntimeError Value) :=
  match self, value with
  | .bool l_bool, .bool r_bool => some (.ok (.bool (!l_bool || r_bool)))
  | .str l_str, .str r_str => some (.ok (.bool (decide (l_str ≤ r_str))))
  | .int l_int, .int r_int => some (.ok (.bool (decide (l_int ≤ r_int))))
  | l_value, r_value => some (.error (invalid_comparison l_value r_value location))

def Value.gt (self value : Value) (location : Location) : Option (Except RuntimeError Value) :=
  match self, value with
  | .bool l_bool, .bool r_bool => some (.ok (.bool (l_bool && !r_bool)))
  | .str l_str, .str r_str => some (.ok (.bool (decide (r_str < l_str))))
  | .int l_int, .int r_int => some (.ok (.bool (decide (r_int < l_int))))
  | l_value, r_value => some (.error (invalid_comparison l_value r_value location))

def Value.gte (self value : Value) (location : Location) : Option (Except RuntimeError Value) :=
  match self, value with
  | .bool l_bool, .bool r_bool => some (.ok (.bool (l_bool || !r_bool)))
  | .str l_str, .str r_str => some (.ok (.bool (decide (r_str ≤ l_str))))
  | .int l_int, .int r_int => some (.ok (.bool (decide (r_int ≤ l_int))))
  | l_value, r_value => some (.error (invalid_comparison l_value r_value location))

/-- `Value::and`: defined for `Bool/Bool` only; note that by the time it
runs, both operands were already evaluated by the caller. -/
def Value.and (self value : Value) (location : Location) : Option (Except RuntimeError Value) :=
  match self, value with
  | .bool l_bool, .bool r_bool => some (.ok (.bool (l_bool && r_bool)))
  | _, _ => some (.error
      ⟨"invalid binary operation", "only booleans can be used on short-circuit operations", location⟩)

def Value.or (self value : Value) (location : Location) : Option (Except RuntimeError Value) :=
  match self, value with
  | .bool l_bool, .bool r_bool => some (.ok (.bool (l_bool || r_bool)))
  | _, _ => some (.error
      ⟨"invalid binary operation", "only booleans can be used on short-circuit operations", location⟩)

/-- `Value::add`: `i64` addition (wrapping in release mode). -/
def Value.add (self value : Value) (location : Location) : Option (Except RuntimeError Value) :=
  match self, value with
  | .int l_int, .int r_int => some (.ok (.int (wrap64 (l_int + r_int))))
  | .str _, .str _ => some (.error
      ⟨"invalid numeric operation", "strings cannot be added", location⟩)
  | .bool _, .bool _ => some (.error
      ⟨"invalid numeric operation", "booleans cannot be added", location⟩)
  | .closure _ _ _, .closure _ _ _ => some (.error
      ⟨"invalid numeric operation", "closures cannot be added", location⟩)
  | _, _ => some (.error
      ⟨"invalid numeric operation", "different types cannot be used on the same operation", location⟩)

def Value.sub (self value : Value) (location : Location) : Option (Except RuntimeError Value) :=
  match self, value with
  | .int l_int, .int r_int => some (.ok (.int (wrap64 (l_int - r_int))))
  | .str _, .str _ => some (.error
      ⟨"invalid numeric operation", "strings cannot be subtracted", location⟩)
  | .bool _, .bool _ => some (.error
      ⟨"invalid numeric operation", "booleans cannot be subtracted", location⟩)
  | .closure _ _ _, .closure _ _ _ => some (.error
      ⟨"invalid numeric operation", "closures cannot be subtracted", location⟩)
  | _, _ => some (.error
      ⟨"invalid numeric operation", "different types cannot be used on the same operation", location⟩)

/-- `Value::mul`: the `Int/Int` arm computes `l_int - r_int` in the
source — subtraction, not multiplication. -/
def Value.mul (self value : Value) (location : Location) : Option (Except RuntimeError Value) :=
  match self, value with
  | .int l_int, .int r_int => some (.ok (.int (wrap64 (l_int - r_int))))
  | .str _, .str _ => some (.error
      ⟨"invalid numeric operation", "strings cannot be multiplied", location⟩)
  | .bool _, .bool _ => some (.error
      ⟨"invalid numeric operation", "booleans cannot be multiplied", location⟩)
  | .closure _ _ _, .closure _ _ _ => some (.error
      ⟨"invalid numeric operation", "closures cannot be multiplied", location⟩)
  | _, _ => some (.error
      ⟨"invalid numeric operation", "different types cannot be used on the same operation", location⟩)

/-- `Value::div`: `i64` division truncates toward zero (`Int.tdiv`);
division by zero and `i64::MIN / -1` panic in Rust, modelled `none`. -/
def Value.div (self value : Value) (location : Location) : Option (Except RuntimeError Value) :=
  match self, value with
  | .int l_int, .int r_int =>
    if r_int = 0 ∨ (l_int = -(2 ^ 63) ∧ r_int = -1) then none
    else some (.ok (.int (l_int.tdiv r_int)))
  | .str _, .str _ => some (.error
      ⟨"invalid numeric operation", "strings cannot be divided", location⟩)
  | .bool _, .bool _ => some (.error
      ⟨"invalid numeric operation", "booleans cannot be divided", location⟩)
  | .closure _ _ _, .closure _ _ _ => some (.error
      ⟨"invalid numeric operation", "closures cannot be divided", location⟩)
  | _, _ => some (.error
      ⟨"invalid numeric operation", "different types cannot be used on the same operation", location⟩)

/-- `Value::rem`: the `Int/Int` arm computes `l_int / r_int` in the
source — division, not remainder. -/
def Value.rem (self value : Value) (location : Location) : Option (Except RuntimeError Value) :=
  match self, value with
  | .int l_int, .int r_int =>
    if r_int = 0 ∨ (l_int = -(2 ^ 63) ∧ r_int = -1) then none
    else some (.ok (.int (l_int.tdiv r_int)))
  | .str _, .str _ => some (.error
      ⟨"invalid numeric operation", "strings cannot be used with rem", location⟩)
  | .bool _, .bool _ => some (.error
      ⟨"invalid numeric operation", "booleans cannot be used with rem", location⟩)
  | .closure _ _ _, .closure _ _ _ => some (.error
      ⟨"invalid numeric operation", "closures cannot be used with rem", location⟩)
  | _, _ => some (.error
      ⟨"invalid numeric operation", "different types cannot be used on the same operation", location⟩)

/-- The operator dispatch shared by `eval_binary` and `bounce_binary`
(both match on `binary.op` with identical arms). -/
def eval_binary_op (op : BinaryOp) (l_value r_value : Value) (location : Location) :
    Option (Except RuntimeError Value) :=
  match op with
  | .eq => l_value.eq r_value location
  | .neq => l_value.neq r_value location
  | .lt => l_value.lt r_value location
  | .lte => l_value.lte r_value location
  | .gt => l_value.gt r_value location
  | .gte => l_value.gte r_value location
  | .and => l_value.and r_value location
  | .or => l_value.or r_value location
  | .add => l_value.add r_value location
  | .sub => l_value.sub r_value location
  | .mul => l_value.mul r_value location
  | .div => l_value.div r_value location
  | .rem => l_value.rem r_value location

/-- `is_pure`: unwraps nested `Function` literals; the body is impure
exactly when the unwrapping lands on a `Print` node; every other node
shape is pure regardless of its contents. -/
def is_pure : Term → Bool
  | .function _ value _ => is_pure value
  | .print _ _ => false
  | _ => true

/-- `update_context`: folds the parameter/argument lists into the
accumulated context; any length mismatch is an "invalid arguments"
error (the source's first four or-patterns). -/
def update_context (parameters : List Var) (arguments : List Value) (acc : Context)
    (location : Location) : Except RuntimeError Context :=
  match parameters, arguments with
  | [], _ :: _ | _ :: _, [] =>
    .error ⟨"invalid arguments",
      "expecting " ++ toString parameters.length ++ " arguments but got "
        ++ toString arguments.length, location⟩
  | [], [] => .ok acc
  | [parameter], [argument] => .ok (acc.update parameter.text argument)
  | parameter :: parameters, argument :: arguments =>
    update_context parameters arguments (acc.update parameter.text argument) location

/-- `cache_key`'s argument pass: each argument is hashed to a string;
a `Closure` argument aborts the whole key (`Value::Closure => None` in
the source; `Value.hashStr` is `none` exactly there). -/
def hash_arguments : List Value → Option (List String)
  | [] => some []
  | argument :: rest =>
    match argument.hashStr with
    | none => none
    | some h =>
      match hash_arguments rest with
      | none => none
      | some hs => some (h :: hs)

/-- `cache_key`: the body paired with the argument hashes, or `none`
when any argument is a closure. -/
def cache_key (body : Term) (arguments : List Value) : Option CacheKey :=
  match hash_arguments arguments with
  | none => none
  | some hashes => some (body, hashes)

/-- One evaluation result of the recursive engine: outcome, final cache,
and the lines printed (in order) during the evaluation. -/
abbrev EvalResult := Except RuntimeError Value × Cache × List String

/-- `eval_arguments`: left-to-right evaluation of the call's arguments,
accumulating values; the evaluator is passed explicitly (it is `eval`
at the next fuel level). -/
def eval_arguments (evalF : Term → Context → Cache → Option EvalResult) :
    List Term → List Value → Context → Cache →
    Option (Except RuntimeError (List Value) × Cache × List String)
  | [], acc, _, cache => some (.ok acc, cache, [])
  | argument :: rest, acc, context, cache =>
    match evalF argument context cache with
    | none => none
    | some (.error e, cache1, out1) => some (.error e, cache1, out1)
    | some (.ok value, cache1, out1) =>
      match eval_arguments evalF rest (acc ++ [value]) context cache1 with
      | none => none
      | some (r, cache2, out2) => some (r, cache2, out1 ++ out2)

/-- `memo_eval` (free function, recursive engine): no key ⇒ plain
evaluation; key hit ⇒ the cached value, with no body evaluation (and so
no output and no cache change); key miss ⇒ evaluate, store, return. -/
def memo_eval (evalF : Term → Context → Cache → Option EvalResult) (body : Term)
    (arguments : List Value) (context : Context) (cache : Cache) : Option EvalResult :=
  match cache_key body arguments with
  | some key =>
    match cache.get key with
    | some cachedValue => some (.ok cachedValue, cache, [])
    | none =>
      match evalF body context cache with
      | none => none
      | some (.error e, cache1, out1) => some (.error e, cache1, out1)
      | some (.ok value, cache1, out1) => some (.ok value, cache1.insert key value, out1)
  | none => evalF body context cache

/-- One step of the recursive engine `eval`; the arms are the source's
`eval_let`, `eval_call`, `eval_if`, `eval_binary`, `eval_var`,
`eval_tuple`, `eval_first`, `eval_second`, `eval_print`,
`eval_function` inlined, with `evalF` standing for the recursive call. -/
def evalStep (evalF : Term → Context → Cache → Option EvalResult) :
    Term → Context → Cache → Option EvalResult
  | .lett name value next _, context, cache =>
    match evalF value context cache with
    | none => none
    | some (.error e, cache1, out1) => some (.error e, cache1, out1)
    | some (.ok v, cache1, out1) =>
      match evalF next (context.update name.text v) cache1 with
      | none => none
      | some (r, cache2, out2) => some (r, cache2, out1 ++ out2)
  | .int value _, _, cache => some (.ok (.int value), cache, [])
  | .str value _, _, cache => some (.ok (.str value), cache, [])
  | .bool value _, _, cache => some (.ok (.bool value), cache, [])
  | .function parameters value _, context, cache =>
    some (.ok (.closure parameters value context), cache, [])
  | .call callee arguments location, context, cache =>
    match evalF callee context cache with
    | none => none
    | some (.error e, cache1, out1) => some (.error e, cache1, out1)
    | some (.ok (.closure parameters body cctx), cache1, out1) =>
      let context1 := Context.union cctx context
      match eval_arguments evalF arguments [] context1 cache1 with
      | none => none
      | some (.error e, cache2, out2) => some (.error e, cache2, out1 ++ out2)
      | some (.ok argumentValues, cache2, out2) =>
        match update_context parameters argumentValues context1 location with
        | .error e => some (.error e, cache2, out1 ++ out2)
        | .ok context2 =>
          match (if is_pure body then memo_eval evalF body argumentValues context2 cache2
                 else evalF body context2 cache2) with
          | none => none
          | some (r, cache3, out3) => some (r, cache3, out1 ++ out2 ++ out3)
    | some (.ok value, cache1, out1) =>
      some (.error ⟨"invalid function call",
        value.display ++ " cannot be called as a function", location⟩, cache1, out1)
  | .if_ condition then_ otherwise _, context, cache =>
    match evalF condition context cache with
    | none => none
    | some (.error e, cache1, out1) => some (.error e, cache1, out1)
    | some (.ok conditionResult, cache1, out1) =>
      match conditionResult with
      | .bool b =>
        match evalF (if b then then_ else otherwise) context cache1 with
        | none => none
        | some (r, cache2, out2) => some (r, cache2, out1 ++ out2)
      | v => some (.error ⟨"invalid if condition",
          v.display ++ " can\x27t be used as an if condition. use a boolean instead",
          condition.location⟩, cache1, out1)
  | .binary lhs op rhs _, context, cache =>
    match evalF lhs context cache with
    | none => none
    | some (.error e, cache1, out1) => some (.error e, cache1, out1)
    | some (.ok l_value, cache1, out1) =>
      match evalF rhs context cache1 with
      | none => none
      | some (.error e, cache2, out2) => some (.error e, cache2, out1 ++ out2)
      | some (.ok r_value, cache2, out2) =>
        match eval_binary_op op l_value r_value lhs.location with
        | none => none
        | some r => some (r, cache2, out1 ++ out2)
  | .var v, context, cache =>
    match context.get v.text with
    | some value => some (.ok value, cache, [])
    | none => some (.error ⟨"unbound variable \"" ++ v.text ++ "\"",
        "variable \"" ++ v.text ++ "\" was not defined in the current scope",
        v.location⟩, cache, [])
  | .tuple first second _, context, cache =>
    match evalF first context cache with
    | none => none
    | some (.error e, cache1, out1) => some (.error e, cache1, out1)
    | some (.ok v1, cache1, out1) =>
      match evalF second context cache1 with
      | none => none
      | some (.error e, cache2, out2) => some (.error e, cache2, out1 ++ out2)
      | some (.ok v2, cache2, out2) => some (.ok (.tuple v1 v2), cache2, out1 ++ out2)
  | .first value location, context, cache =>
    match evalF value context cache with
    | none => none
    | some (.error e, cache1, out1) => some (.error e, cache1, out1)
    | some (.ok (.tuple f _), cache1, out1) => some (.ok f, cache1, out1)
    | some (.ok _, cache1, out1) =>
      some (.error ⟨"invalid expression",
        "cannot use first operation from anything but a tuple", location⟩, cache1, out1)
  | .second value location, context, cache =>
    match evalF value context cache with
    | none => none
    | some (.error e, cache1, out1) => some (.error e, cache1, out1)
    | some (.ok (.tuple _ s), cache1, out1) => some (.ok s, cache1, out1)
    | some (.ok _, cache1, out1) =>
      some (.error ⟨"invalid expression",
        "cannot use second operation from anything but a tuple", location⟩, cache1, out1)
  | .print value _, context, cache =>
    match evalF value context cache with
    | none => none
    | some (.error e, cache1, out1) => some (.error e, cache1, out1)
    | some (.ok v, cache1, out1) => some (.ok v, cache1, out1 ++ [v.display])

/-- The recursive engine `eval`, with fuel. -/
def eval : Nat → Term → Context → Cache → Option EvalResult
  | 0, _, _, _ => none
  | fuel + 1, term, context, cache => evalStep (eval fuel) term context cache

/-- `pub fn eval_file`: fresh empty context and cache. -/
def eval_file (fuel : Nat) (expression : Term) : Option EvalResult :=
  eval fuel expression [] []

/-- `struct Interpreter { context, cache }` — the trampoline engine's
mutable state (`interpreter.context` is replaced in place by
`bounce_let` and `bounce_call` and never restored). -/
structure Interpreter where
  context : Context
  cache : Cache

/-- A trampoline-engine result: outcome, final interpreter state, output
lines, and the maximal nesting of native `Trampoline::run` invocations
reached (the trampoline loop itself adds no nesting; each eager
`interpreter.eval(..).run()` inside a bounce handler adds one). -/
abbrev TrampResult := Except RuntimeError Value × Interpreter × List String × Nat

/-- `Interpreter::memo_eval`: a hit lands immediately; a miss evaluates
the body through a nested native `self.eval(body).run()` (depth + 1);
no key falls back to `Ok(self.eval(body))`, a tail bounce resolved by
the outer loop (no extra native nesting). -/
def interp_memo_eval (runF : Term → Interpreter → Option TrampResult) (body : Term)
    (arguments : List Value) (s : Interpreter) : Option TrampResult :=
  match cache_key body arguments with
  | some key =>
    match s.cache.get key with
    | some cachedValue => some (.ok cachedValue, s, [], 0)
    | none =>
      match runF body s with
      | none => none
      | some (.error e, s1, out1, d) => some (.error e, s1, out1, d + 1)
      | some (.ok value, s1, out1, d) =>
        some (.ok value, { s1 with cache := s1.cache.insert key value }, out1, d + 1)
  | none => runF body s

/-- One step of the trampoline engine: `Interpreter::eval` dispatching
into the `bounce_*` handlers, re-functionalised.  `runF` is
`tramp_eval` at the next fuel level; a handler's returned `Trampoline`
becomes a plain `runF` call (no depth increment), a nested native
`.run()` becomes a `runF` call whose depth is incremented.  `fuel` is
only used for the embedded recursive-engine argument evaluation
(`bounce_call` calls the free `eval_arguments`). -/
def trampStep (fuel : Nat) (runF : Term → Interpreter → Option TrampResult) :
    Term → Interpreter → Option TrampResult
  | .int value _, s => some (.ok (.int value), s, [], 0)
  | .str value _, s => some (.ok (.str value), s, [], 0)
  | .bool value _, s => some (.ok (.bool value), s, [], 0)
  | .function parameters value _, s =>
    some (.ok (.closure parameters value s.context), s, [], 0)
  | .var v, s =>
    match s.context.get v.text with
    | some value => some (.ok value, s, [], 0)
    | none => some (.error ⟨"unbound variable \"" ++ v.text ++ "\"",
        "variable \"" ++ v.text ++ "\" was not defined in the current scope",
        v.location⟩, s, [], 0)
  | .lett name value next _, s =>
    match runF value s with
    | none => none
    | some (.error e, s1, out1, d) => some (.error e, s1, out1, d + 1)
    | some (.ok v, s1, out1, d1) =>
      match runF next { s1 with context := s1.context.update name.text v } with
      | none => none
      | some (r, s2, out2, d2) => some (r, s2, out1 ++ out2, max (d1 + 1) d2)
  | .if_ condition then_ otherwise _, s =>
    match runF condition s with
    | none => none
    | some (.error e, s1, out1, d) => some (.error e, s1, out1, d + 1)
    | some (.ok c, s1, out1, d1) =>
      match c with
      | .bool b =>
        match runF (if b then then_ else otherwise) s1 with
        | none => none
        | some (r, s2, out2, d2) => some (r, s2, out1 ++ out2, max (d1 + 1) d2)
      | v => some (.error ⟨"invalid if condition",
          v.display ++ " can\x27t be used as an if condition. use a boolean instead",
          condition.location⟩, s1, out1, d1 + 1)
  | .binary lhs op rhs _, s =>
    match runF lhs s with
    | none => none
    | some (.error e, s1, out1, d) => some (.error e, s1, out1, d + 1)
    | some (.ok l_value, s1, out1, d1) =>
      match runF rhs s1 with
      | none => none
      | some (.error e, s2, out2, d2) => some (.error e, s2, out1 ++ out2, max (d1 + 1) (d2 + 1))
      | some (.ok r_value, s2, out2, d2) =>
        match eval_binary_op op l_value r_value lhs.location with
        | none => none
        | some r => some (r, s2, out1 ++ out2, max (d1 + 1) (d2 + 1))
  | .tuple first second _, s =>
    match runF first s with
    | none => none
    | some (.error e, s1, out1, d) => some (.error e, s1, out1, d + 1)
    | some (.ok v1, s1, out1, d1) =>
      match runF second s1 with
      | none => none
      | some (.error e, s2, out2, d2) => some (.error e, s2, out1 ++ out2, max (d1 + 1) (d2 + 1))
      | some (.ok v2, s2, out2, d2) =>
        some (.ok (.tuple v1 v2), s2, out1 ++ out2, max (d1 + 1) (d2 + 1))
  | .first value location, s =>
    match runF value s with
    | none => none
    | some (.error e, s1, out1, d) => some (.error e, s1, out1, d + 1)
    | some (.ok (.tuple f _), s1, out1, d) => some (.ok f, s1, out1, d + 1)
    | some (.ok _, s1, out1, d) =>
      some (.error ⟨"invalid expression",
        "cannot use first operation from anything but a tuple", location⟩, s1, out1, d + 1)
  | .second value location, s =>
    match runF value s with
    | none => none
    | some (.error e, s1, out1, d) => some (.error e, s1, out1, d + 1)
    | some (.ok (.tuple _ snd), s1, out1, d) => some (.ok snd, s1, out1, d + 1)
    | some (.ok _, s1, out1, d) =>
      some (.error ⟨"invalid expression",
        "cannot use second operation from anything but a tuple", location⟩, s1, out1, d + 1)
  | .print value _, s =>
    match runF value s with
    | none => none
    | some (.error e, s1, out1, d) => some (.error e, s1, out1, d + 1)
    | some (.ok v, s1, out1, d) => some (.ok v, s1, out1 ++ [v.display], d + 1)
  | .call callee arguments location, s =>
    match runF callee s with
    | none => none
    | some (.error e, s1, out1, d) => some (.error e, s1, out1, d + 1)
    | some (.ok (.closure parameters body cctx), s1, out1, d0) =>
      let context1 := Context.union cctx s1.context
      match eval_arguments (eval fuel) arguments [] context1 s1.cache with
      | none => none
      | some (.error e, cache2, out2) =>
        some (.error e, { s1 with cache := cache2 }, out1 ++ out2, d0 + 1)
      | some (.ok argumentValues, cache2, out2) =>
        match update_context parameters argumentValues context1 location with
        | .error e => some (.error e, { s1 with cache := cache2 }, out1 ++ out2, d0 + 1)
        | .ok updatedContext =>
          let s3 : Interpreter := ⟨updatedContext, cache2⟩
          match (if is_pure body then interp_memo_eval runF body argumentValues s3
                 else runF body s3) with
          | none => none
          | some (r, s4, out3, d) => some (r, s4, out1 ++ out2 ++ out3, max (d0 + 1) d)
    | some (.ok value, s1, out1, d0) =>
      some (.error ⟨"invalid function call",
        value.display ++ " cannot be called as a function", location⟩, s1, out1, d0 + 1)

/-- The trampoline engine: `interpreter.eval(term).run()`, with fuel. -/
def tramp_eval : Nat → Term → Interpreter → Option TrampResult
  | 0, _, _ => none
  | fuel + 1, term, s => trampStep fuel (tramp_eval fuel) term s

/-- `Interpreter::eval_file`: default (empty) interpreter state. -/
def interp_eval_file (fuel : Nat) (expression : Term) : Option TrampResult :=
  tramp_eval fuel expression ⟨[], []⟩

/-- A fixed location for concrete test programs. -/
def loc0 : Location := ⟨0, 0, "test"⟩

/-- Left-biased choice on optional lookups, used to state the merge
precedence of `Context.union` and `update_context`. -/
def opt_or : Option Value → Option Value → Option Value
  | some v, _ => some v
  | none, o => o

/-- The parameter bindings produced by `update_context`, as a lookup:
later parameters shadow earlier ones (each `update` overwrites), so the
reversed parameter/argument zip is searched front-to-back. -/
def params_lookup (parameters : List Var) (arguments : List Value) (name : String) :
    Option Value :=
  Context.get ((parameters.map Var.text).zip arguments).reverse name

/-- Unwrapping of nested `Function` literals, the recursion scheme of
`is_pure`. -/
def peel_functions : Term → Term
  | .function _ value _ => peel_functions value
  | t => t

/-- Whether a term is syntactically a `Print` node. -/
def is_print : Term → Bool
  | .print _ _ => true
  | _ => false

/-- Terms containing no `Let` and no `Call` node in evaluation position
(a `Function` literal's body is inert data until called, so it is not
inspected). -/
def noLetCall : Term → Bool
  | .lett _ _ _ _ => false
  | .call _ _ _ => false
  | .int _ _ => true
  | .str _ _ => true
  | .bool _ _ => true
  | .function _ _ _ => true
  | .var _ => true
  | .if_ condition then_ otherwise _ => noLetCall condition && noLetCall then_ && noLetCall otherwise
  | .binary lhs _ rhs _ => noLetCall lhs && noLetCall rhs
  | .tuple first second _ => noLetCall first && noLetCall second
  | .first value _ => noLetCall value
  | .second value _ => noLetCall value
  | .print value _ => noLetCall value

/-- A trampoline result with the interpreter state flattened and the
native-nesting depth forgotten, for comparison with the recursive
engine. -/
def forget : Option TrampResult →
    Option (Except RuntimeError Value × Context × Cache × List String)
  | none => none
  | some (r, s, out, _) => some (r, s.context, s.cache, out)

theorem location_beq_refl (l : Location) : l.beq l = true := by
  cases l; simp [Location.beq]

theorem var_beq_refl (v : Var) : v.beq v = true := by
  cases v; simp [Var.beq, location_beq_refl]

theorem var_beqList_refl : ∀ vs : List Var, Var.beqList vs vs = true
  | [] => rfl
  | v :: vs => by simp [Var.beqList, var_beq_refl, var_beqList_refl vs]

theorem op_beq_refl (op : BinaryOp) : (op == op) = true := by
  cases op <;> rfl

mutual

theorem term_beq_refl : ∀ t : Term, Term.beq t t = true
  | .lett n v x l => by
    show (n.beq n && Term.beq v v && Term.beq x x && l.beq l) = true
    simp [var_beq_refl, term_beq_refl v, term_beq_refl x, location_beq_refl]
  | .int v l => by
    show ((v == v) && l.beq l) = true
    simp [location_beq_refl]
  | .str v l => by
    show ((v == v) && l.beq l) = true
    simp [location_beq_refl]
  | .bool v l => by
    show ((v == v) && l.beq l) = true
    simp [location_beq_refl]
  | .function p v l => by
    show (Var.beqList p p && Term.beq v v && l.beq l) = true
    simp [var_beqList_refl, term_beq_refl v, location_beq_refl]
  | .call c a l => by
    show (Term.beq c c && Term.beqList a a && l.beq l) = true
    simp [term_beq_refl c, terms_beq_refl a, location_beq_refl]
  | .if_ c t o l => by
    show (Term.beq c c && Term.beq t t && Term.beq o o && l.beq l) = true
    simp [term_beq_refl c, term_beq_refl t, term_beq_refl o, location_beq_refl]
  | .binary lh op rh l => by
    show (Term.beq lh lh && (op == op) && Term.beq rh rh && l.beq l) = true
    simp [term_beq_refl lh, op_beq_refl, term_beq_refl rh, location_beq_refl]
  | .var v => by
    show v.beq v = true
    simp [var_beq_refl]
  | .tuple f s l => by
    show (Term.beq f f && Term.beq s s && l.beq l) = true
    simp [term_beq_refl f, term_beq_refl s, location_beq_refl]
  | .first v l => by
    show (Term.beq v v && l.beq l) = true
    simp [term_beq_refl v, location_beq_refl]
  | .second v l => by
    show (Term.beq v v && l.beq l) = true
    simp [term_beq_refl v, location_beq_refl]
  | .print v l => by
    show (Term.beq v v && l.beq l) = true
    simp [term_beq_refl v, location_beq_refl]

theorem terms_beq_refl : ∀ ts : List Term, Term.beqList ts ts = true
  | [] => rfl
  | t :: ts => by
    show (Term.beq t t && Term.beqList ts ts) = true
    simp [term_beq_refl t, terms_beq_refl ts]

end

theorem key_beq_refl (k : CacheKey) : key_beq k k = true := by
  obtain ⟨t, h⟩ := k
  simp [key_beq, term_beq_refl]

theorem Cache.get_insert_self (cache : Cache) (key : CacheKey) (value : Value) :
    (cache.insert key value).get key = some value := by
  simp [Cache.insert, Cache.get, key_beq_refl]

/- Concrete programs used by the claims below. -/

/-- `let f = () => y; let y = 4; f()` — the source's own comment in
`eval_call` documents that the body observes the caller's later binding
of `y`. -/
def quirkProg : Term :=
  .lett ⟨"f", loc0⟩ (.function [] (.var ⟨"y", loc0⟩) loc0)
    (.lett ⟨"y", loc0⟩ (.int 4 loc0)
      (.call (.var ⟨"f", loc0⟩) [] loc0) loc0) loc0

/-- `let z = 5; let g = () => { let z = 1; z }; let a = g(); z` — the
trampoline engine's context replacement leaks the call-body binding of
`z` back into the top level. -/
def leakProg : Term :=
  .lett ⟨"z", loc0⟩ (.int 5 loc0)
    (.lett ⟨"g", loc0⟩
      (.function [] (.lett ⟨"z", loc0⟩ (.int 1 loc0) (.var ⟨"z", loc0⟩) loc0) loc0)
      (.lett ⟨"a", loc0⟩ (.call (.var ⟨"g", loc0⟩) [] loc0)
        (.var ⟨"z", loc0⟩) loc0) loc0) loc0

/-- `let mk = (a) => (x) => a + x; let c1 = mk(1); let c2 = mk(2);
let r1 = c1(10); let r2 = c2(10); (r1, r2)` — two closures with the
same body but different captured `a` collide on the cache key. -/
def collideProg : Term :=
  .lett ⟨"mk", loc0⟩
    (.function [⟨"a", loc0⟩]
      (.function [⟨"x", loc0⟩]
        (.binary (.var ⟨"a", loc0⟩) .add (.var ⟨"x", loc0⟩) loc0) loc0) loc0)
    (.lett ⟨"c1", loc0⟩ (.call (.var ⟨"mk", loc0⟩) [.int 1 loc0] loc0)
      (.lett ⟨"c2", loc0⟩ (.call (.var ⟨"mk", loc0⟩) [.int 2 loc0] loc0)
        (.lett ⟨"r1", loc0⟩ (.call (.var ⟨"c1", loc0⟩) [.int 10 loc0] loc0)
          (.lett ⟨"r2", loc0⟩ (.call (.var ⟨"c2", loc0⟩) [.int 10 loc0] loc0)
            (.tuple (.var ⟨"r1", loc0⟩) (.var ⟨"r2", loc0⟩) loc0) loc0) loc0) loc0) loc0) loc0

/-- The body of the tail self-recursive loop:
`if n == 0 { 0 } else { f(n - 1) }`. -/
def loopBody : Term :=
  .if_ (.binary (.var ⟨"n", loc0⟩) .eq (.int 0 loc0) loc0)
    (.int 0 loc0)
    (.call (.var ⟨"f", loc0⟩) [.binary (.var ⟨"n", loc0⟩) .sub (.int 1 loc0) loc0] loc0)
    loc0

/-- `let f = (n) => if n == 0 { 0 } else { f(n - 1) }; f(N)` — a pure
self-recursive function tail-calling itself `N` times (recursion works
because the call-site context, which contains `f`, is merged into the
body's environment). -/
def loopProg (N : Nat) : Term :=
  .lett ⟨"f", loc0⟩ (.function [⟨"n", loc0⟩] loopBody loc0)
    (.call (.var ⟨"f", loc0⟩) [.int (N : Int) loc0] loc0) loc0

theorem eval_succ (fuel : Nat) (t : Term) (context : Context) (cache : Cache) :
    eval (fuel + 1) t context cache = evalStep (eval fuel) t context cache := rfl

theorem tramp_succ (fuel : Nat) (t : Term) (s : Interpreter) :
    tramp_eval (fuel + 1) t s = trampStep fuel (tramp_eval fuel) t s := rfl

/-- A value is a closure at the top level. -/
def Value.is_closure : Value → Bool
  | .closure _ _ _ => true
  | _ => false

theorem hashStr_eq_none_iff (v : Value) : v.hashStr = none ↔ v.is_closure = true := by
  cases v <;> simp [Value.hashStr, Value.is_closure]

theorem hash_arguments_eq_none_iff :
    ∀ arguments : List Value,
      hash_arguments arguments = none ↔ arguments.any Value.is_closure = true
  | [] => by simp [hash_arguments]
  | a :: rest => by
    rw [hash_arguments]
    cases ha : a.hashStr with
    | none =>
      simp only [List.any_cons, Bool.or_eq_true]
      simp [(hashStr_eq_none_iff a).mp ha]
    | some h =>
      have hac : a.is_closure = false := by
        cases hc : a.is_closure
        · rfl
        · rw [← hashStr_eq_none_iff a] at hc; rw [ha] at hc; cases hc
      cases hr : hash_arguments rest with
      | none => simp [hac, (hash_arguments_eq_none_iff rest).mp hr]
      | some hs =>
        have : ¬ rest.any Value.is_closure = true := by
          rw [← hash_arguments_eq_none_iff rest, hr]; simp
        simp [hac, this]

theorem cache_key_eq_none_iff (body : Term) (arguments : List Value) :
    cache_key body arguments = none ↔ arguments.any Value.is_closure = true := by
  rw [cache_key]
  cases h : hash_arguments arguments with
  | none => simp [(hash_arguments_eq_none_iff arguments).mp h]
  | some hs =>
    have : ¬ arguments.any Value.is_closure = true := by
      rw [← hash_arguments_eq_none_iff arguments, h]; simp
    simp [this]

theorem memo_eval_no_key (evalF : Term → Context → Cache → Option EvalResult)
    (body : Term) (arguments : List Value) (context : Context) (cache : Cache)
    (hk : cache_key body arguments = none) :
    memo_eval evalF body arguments context cache = evalF body context cache := by
  simp [memo_eval, hk]

theorem memo_eval_hit (evalF : Term → Context → Cache → Option EvalResult)
    (body : Term) (arguments : List Value) (context : Context) (cache : Cache)
    (key : CacheKey) (cachedValue : Value)
    (hk : cache_key body arguments = some key) (hc : cache.get key = some cachedValue) :
    memo_eval evalF body arguments context cache = some (.ok cachedValue, cache, []) := by
  simp [memo_eval, hk, hc]

theorem memo_eval_miss (evalF : Term → Context → Cache → Option EvalResult)
    (body : Term) (arguments : List Value) (context : Context) (cache : Cache)
    (key : CacheKey) (value : Value) (cache1 : Cache) (out1 : List String)
    (hk : cache_key body arguments = some key) (hc : cache.get key = none)
    (he : evalF body context cache = some (.ok value, cache1, out1)) :
    memo_eval evalF body arguments context cache
      = some (.ok value, cache1.insert key value, out1) := by
  simp [memo_eval, hk, hc, he]

theorem wrap64_eq_self (z : Int) (h1 : -(2 ^ 63) ≤ z) (h2 : z < 2 ^ 63) : wrap64 z = z := by
  have e63 : (2 : Int) ^ 63 = 9223372036854775808 := by norm_num
  have e64 : (2 : Int) ^ 64 = 18446744073709551616 := by norm_num
  rw [wrap64, Int.emod_eq_of_lt (by omega) (by omega)]
  omega

theorem Context.get_append (a b : Context) (name : String) :
    Context.get (a ++ b) name = opt_or (a.get name) (b.get name) := by
  induction a with
  | nil => simp [Context.get, opt_or]
  | cons hd tl ih =>
    obtain ⟨n, v⟩ := hd
    by_cases h : n = name <;> simp [Context.get, h, ih, opt_or]

theorem update_context_get :
    ∀ (parameters : List Var) (arguments : List Value) (acc : Context)
      (location : Location) (ctx' : Context),
      update_context parameters arguments acc location = .ok ctx' →
      ∀ name, ctx'.get name = opt_or (params_lookup parameters arguments name) (acc.get name)
  | [], [], acc, location, ctx' => by
    intro h name
    rw [update_context] at h
    cases h
    simp [params_lookup, Context.get, opt_or]
  | [], a :: as_, acc, location, ctx' => by
    intro h name
    rw [update_context] at h
    cases h
  | p :: ps, [], acc, location, ctx' => by
    intro h name
    rw [update_context] at h
    cases h
  | [p], [a], acc, location, ctx' => by
    intro h name
    rw [update_context] at h
    cases h
    by_cases hp : p.text = name <;>
      simp [params_lookup, Context.update, Context.get, hp, opt_or]
  | [p], a1 :: a2 :: as_, acc, location, ctx' => by
    intro h name
    simp [update_context] at h
  | p1 :: p2 :: ps, [a], acc, location, ctx' => by
    intro h name
    simp [update_context] at h
  | p1 :: p2 :: ps, a1 :: a2 :: as_, acc, location, ctx' => by
    intro h name
    have h' : update_context (p2 :: ps) (a2 :: as_)
        (acc.update p1.text a1) location = .ok ctx' := h
    have ih := update_context_get (p2 :: ps) (a2 :: as_)
      (acc.update p1.text a1) location ctx' h' name
    have pl_cons : params_lookup (p1 :: p2 :: ps) (a1 :: a2 :: as_) name
        = opt_or (params_lookup (p2 :: ps) (a2 :: as_) name)
            (Context.get [(p1.text, a1)] name) := by
      show Context.get (((p1.text, a1)
        :: ((List.map Var.text (p2 :: ps)).zip (a2 :: as_))).reverse) name = _
      rw [List.reverse_cons, Context.get_append]
      rfl
    rw [ih, pl_cons]
    by_cases hp : p1.text = name <;>
      cases hps : params_lookup (p2 :: ps) (a2 :: as_) name <;>
        simp_all [Context.update, Context.get, opt_or]

/-- C3 counterexample: at the `i64` boundary, `add` does not return the
mathematical sum (release-mode Rust wraps; debug-mode Rust panics —
either way the result is not `Int(a + b)`). -/
theorem c3_add_overflow_counterexample :
    Value.add (.int (2 ^ 63 - 1)) (.int 1) loc0 ≠ some (.ok (.int (2 ^ 63 - 1 + 1))) := by
  intro hc
  have h1 : Value.add (.int (2 ^ 63 - 1)) (.int 1) loc0
      = some (.ok (.int (wrap64 (2 ^ 63 - 1 + 1)))) := rfl
  have h2 : wrap64 (2 ^ 63 - 1 + 1) = -(2 ^ 63) := by decide
  rw [h1, h2] at hc
  simp only [Option.some.injEq, Except.ok.injEq, Value.int.injEq] at hc
  exact absurd hc (by decide)

/-- C3 (amended): for `i64` pairs whose result fits in `i64`, `add`
returns `a + b` and `sub` returns `a - b`; `mul`'s `Int/Int` arm
computes `a - b` (subtraction, the documented defect), and `rem`'s
`Int/Int` arm computes the truncated division `a / b` (the documented
defect), defined whenever the division does not panic (`b ≠ 0` and not
`MIN / -1`). -/
theorem c3_arithmetic_ops (a b : Int) (location : Location) :
    (-(2 ^ 63) ≤ a + b → a + b < 2 ^ 63 →
      Value.add (.int a) (.int b) location = some (.ok (.int (a + b))))
    ∧ (-(2 ^ 63) ≤ a - b → a - b < 2 ^ 63 →
      Value.sub (.int a) (.int b) location = some (.ok (.int (a - b))))
    ∧ (-(2 ^ 63) ≤ a - b → a - b < 2 ^ 63 →
      Value.mul (.int a) (.int b) location = some (.ok (.int (a - b))))
    ∧ (b ≠ 0 → ¬(a = -(2 ^ 63) ∧ b = -1) →
      Value.rem (.int a) (.int b) location = some (.ok (.int (a.tdiv b)))) := by
  refine ⟨fun h1 h2 => ?_, fun h1 h2 => ?_, fun h1 h2 => ?_, fun h1 h2 => ?_⟩
  · simp [Value.add, wrap64_eq_self _ h1 h2]
  · simp [Value.sub, wrap64_eq_self _ h1 h2]
  · simp [Value.mul, wrap64_eq_self _ h1 h2]
  · have hcond : ¬(b = 0 ∨ (a = -(2 ^ 63) ∧ b = -1)) := by tauto
    show (if b = 0 ∨ (a = -(2 ^ 63) ∧ b = -1) then none
          else some (Except.ok (Value.int (a.tdiv b))))
        = some (Except.ok (Value.int (a.tdiv b)))
    rw [if_neg hcond]

theorem c3_arithmetic_ops_witness :
    Value.add (.int 7) (.int 5) loc0 = some (.ok (.int 12))
    ∧ Value.sub (.int 7) (.int 5) loc0 = some (.ok (.int 2))
    ∧ Value.mul (.int 7) (.int 5) loc0 = some (.ok (.int 2))
    ∧ Value.rem (.int 7) (.int 5) loc0 = some (.ok (.int 1)) :=
  ⟨(c3_arithmetic_ops 7 5 loc0).1 (by norm_num) (by norm_num),
   (c3_arithmetic_ops 7 5 loc0).2.1 (by norm_num) (by norm_num),
   (c3_arithmetic_ops 7 5 loc0).2.2.1 (by norm_num) (by norm_num),
   (c3_arithmetic_ops 7 5 loc0).2.2.2 (by norm_num) (by norm_num)⟩

theorem is_pure_eq_false_iff :
    ∀ t : Term, is_pure t = false ↔ is_print (peel_functions t) = true
  | .lett n v x l => by simp [is_pure, peel_functions, is_print]
  | .int v l => by simp [is_pure, peel_functions, is_print]
  | .str v l => by simp [is_pure, peel_functions, is_print]
  | .bool v l => by simp [is_pure, peel_functions, is_print]
  | .function p v l => by
    show is_pure v = false ↔ is_print (peel_functions v) = true
    exact is_pure_eq_false_iff v
  | .call c a l => by simp [is_pure, peel_functions, is_print]
  | .if_ c t o l => by simp [is_pure, peel_functions, is_print]
  | .binary lh op rh l => by simp [is_pure, peel_functions, is_print]
  | .var v => by simp [is_pure, peel_functions, is_print]
  | .tuple f s l => by simp [is_pure, peel_functions, is_print]
  | .first v l => by simp [is_pure, peel_functions, is_print]
  | .second v l => by simp [is_pure, peel_functions, is_print]
  | .print v l => by simp [is_pure, peel_functions, is_print]

/-- C4: the purity classifier returns `false` exactly when unwrapping
nested `Function` literals lands on a syntactic `Print` node; every
other node shape at the stopping point is pure regardless of contents.
In particular a bare `print(...)` body and a function-literal-wrapped
`print(...)` body are impure, while `let y = print(1); y` is pure. -/
theorem c4_purity_classifier :
    (∀ t : Term, is_pure t = false ↔ is_print (peel_functions t) = true)
    ∧ is_pure (.print (.int 1 loc0) loc0) = false
    ∧ is_pure (.function [] (.print (.int 1 loc0) loc0) loc0) = false
    ∧ is_pure (.lett ⟨"y", loc0⟩ (.print (.int 1 loc0) loc0) (.var ⟨"y", loc0⟩) loc0)
        = true :=
  ⟨is_pure_eq_false_iff, rfl, rfl, rfl⟩

/-- C9 counterexample: the `message` field produced for an unbound
variable is the category text with the quoted variable name appended,
not the bare category string "unbound variable". -/
theorem c9_category_counterexample :
    eval 1 (.var ⟨"x", loc0⟩) [] []
      = some (.error ⟨"unbound variable \"x\"",
          "variable \"x\" was not defined in the current scope", loc0⟩, [], [])
    ∧ "unbound variable \"x\"" ≠ "unbound variable" :=
  ⟨rfl, by decide⟩

/-- C9 (amended): evaluating an unbound variable reference fails, in
both engines, with a `RuntimeError` whose `message` is
`unbound variable "<name>"` (category prefix plus quoted name), whose
detail names the variable, and whose location is the reference's
location. -/
theorem c9_unbound_variable (fuel : Nat) (name : String) (location : Location)
    (context : Context) (cache : Cache) (s : Interpreter)
    (h : context.get name = none) (h2 : s.context.get name = none) :
    eval (fuel + 1) (.var ⟨name, location⟩) context cache
      = some (.error ⟨"unbound variable \"" ++ name ++ "\"",
          "variable \"" ++ name ++ "\" was not defined in the current scope", location⟩,
          cache, [])
    ∧ tramp_eval (fuel + 1) (.var ⟨name, location⟩) s
      = some (.error ⟨"unbound variable \"" ++ name ++ "\"",
          "variable \"" ++ name ++ "\" was not defined in the current scope", location⟩,
          s, [], 0) := by
  constructor
  · rw [eval_succ]; simp [evalStep, h]
  · rw [tramp_succ]; simp [trampStep, h2]

theorem c9_unbound_variable_witness :
    eval 1 (.var ⟨"q", loc0⟩) [] []
      = some (.error ⟨"unbound variable \"q\"",
          "variable \"q\" was not defined in the current scope", loc0⟩, [], [])
    ∧ tramp_eval 1 (.var ⟨"q", loc0⟩) ⟨[], []⟩
      = some (.error ⟨"unbound variable \"q\"",
          "variable \"q\" was not defined in the current scope", loc0⟩, ⟨[], []⟩, [], 0) :=
  c9_unbound_variable 0 "q" loc0 [] [] ⟨[], []⟩ rfl rfl

/-- C1: the environment a called closure's body is evaluated in is
`update_context` applied to `merge(captured, caller)`: parameter
bindings (later parameters shadowing earlier ones) win over both, the
captured environment wins over the caller's current environment, and a
name bound in neither the parameters nor the capture resolves to the
caller's binding — so a body can observe a name bound only at the call
site, as the concrete program `let f = () => y; let y = 4; f()`
(evaluating to 4) shows. -/
theorem c1_call_environment :
    (∀ (parameters : List Var) (arguments : List Value) (cctx ctx : Context)
        (location : Location) (ctx' : Context),
      update_context parameters arguments (Context.union cctx ctx) location = .ok ctx' →
      ∀ name, ctx'.get name
        = opt_or (params_lookup parameters arguments name)
            (opt_or (cctx.get name) (ctx.get name)))
    ∧ (eval_file 9 quirkProg).map (fun r => r.1) = some (.ok (.int 4)) := by
  constructor
  · intro ps as_ cctx ctx location ctx' h name
    rw [update_context_get ps as_ _ location ctx' h name]
    rw [show Context.union cctx ctx = cctx ++ ctx from rfl, Context.get_append]
  · rfl

theorem c1_call_environment_witness :
    Context.get [("p", Value.int 1), ("c", Value.int 2), ("d", Value.int 3)] "d"
      = opt_or (params_lookup [⟨"p", loc0⟩] [Value.int 1] "d")
          (opt_or (Context.get [("c", Value.int 2)] "d")
            (Context.get [("d", Value.int 3)] "d")) :=
  c1_call_environment.1 [⟨"p", loc0⟩] [Value.int 1] [("c", Value.int 2)]
    [("d", Value.int 3)] loc0 [("p", Value.int 1), ("c", Value.int 2), ("d", Value.int 3)]
    rfl "d"

/-- C5: key derivation aborts (and the call falls back to uncached
evaluation) exactly when some argument is a closure; a cache hit
returns the cached value with no body evaluation, no output and no
cache change; a miss evaluates the body, stores the result under the
key and returns it; and a second call with the same body and arguments
against the stored cache is a hit returning the stored value. -/
theorem c5_memoized_call :
    (∀ (body : Term) (arguments : List Value),
      cache_key body arguments = none ↔ arguments.any Value.is_closure = true)
    ∧ (∀ (evalF : Term → Context → Cache → Option EvalResult) (body : Term)
        (arguments : List Value) (context : Context) (cache : Cache),
      cache_key body arguments = none →
      memo_eval evalF body arguments context cache = evalF body context cache)
    ∧ (∀ (evalF : Term → Context → Cache → Option EvalResult) (body : Term)
        (arguments : List Value) (context : Context) (cache : Cache)
        (key : CacheKey) (cachedValue : Value),
      cache_key body arguments = some key → cache.get key = some cachedValue →
      memo_eval evalF body arguments context cache = some (.ok cachedValue, cache, []))
    ∧ (∀ (evalF : Term → Context → Cache → Option EvalResult) (body : Term)
        (arguments : List Value) (context : Context) (cache : Cache)
        (key : CacheKey) (value : Value) (cache1 : Cache) (out1 : List String),
      cache_key body arguments = some key → cache.get key = none →
      evalF body context cache = some (.ok value, cache1, out1) →
      memo_eval evalF body arguments context cache
        = some (.ok value, cache1.insert key value, out1))
    ∧ (∀ (evalF : Term → Context → Cache → Option EvalResult) (body : Term)
        (arguments : List Value) (context : Context) (cache1 : Cache)
        (key : CacheKey) (value : Value),
      cache_key body arguments = some key →
      memo_eval evalF body arguments context (cache1.insert key value)
        = some (.ok value, cache1.insert key value, [])) :=
  ⟨cache_key_eq_none_iff,
   memo_eval_no_key,
   memo_eval_hit,
   memo_eval_miss,
   fun evalF body arguments context cache1 key value hk =>
     memo_eval_hit evalF body arguments context _ key value hk
       (Cache.get_insert_self cache1 key value)⟩

theorem c5_memoized_call_witness :
    memo_eval (eval 0) (.int 1 loc0) [.int 2]
        [] [((.int 1 loc0, ["Int(2)"]), .int 9)]
      = some (.ok (.int 9), [((.int 1 loc0, ["Int(2)"]), .int 9)], []) :=
  c5_memoized_call.2.2.1 (eval 0) (.int 1 loc0) [.int 2] []
    [((.int 1 loc0, ["Int(2)"]), .int 9)] (.int 1 loc0, ["Int(2)"]) (.int 9) rfl rfl

/-- C6: the memoization key is derived from the body and explicit
argument values only, never from the closure's captured environment:
retrieval of a cached result is identical under any two contexts (and
any two evaluators), and in the concrete program two closures with the
same body but different captured bindings (`a = 1` vs `a = 2`) both
applied to 10 return the first call's cached 11, giving `(11, 11)`. -/
theorem c6_cache_key_ignores_environment :
    ((eval_file 16 collideProg).map (fun r => r.1)
      = some (.ok (.tuple (.int 11) (.int 11))))
    ∧ (∀ (evalF1 evalF2 : Term → Context → Cache → Option EvalResult) (body : Term)
        (arguments : List Value) (ctx1 ctx2 : Context) (cache : Cache)
        (key : CacheKey) (v : Value),
      cache_key body arguments = some key → cache.get key = some v →
      memo_eval evalF1 body arguments ctx1 cache
        = memo_eval evalF2 body arguments ctx2 cache) := by
  constructor
  · rfl
  · intro evalF1 evalF2 body arguments ctx1 ctx2 cache key v hk hv
    rw [memo_eval_hit evalF1 body arguments ctx1 cache key v hk hv,
        memo_eval_hit evalF2 body arguments ctx2 cache key v hk hv]

theorem c6_cache_key_ignores_environment_witness :
    memo_eval (eval 0) (.int 1 loc0) [.int 2] [("a", Value.int 1)]
        [((.int 1 loc0, ["Int(2)"]), .int 9)]
      = memo_eval (eval 3) (.int 1 loc0) [.int 2] [("a", Value.int 2)]
        [((.int 1 loc0, ["Int(2)"]), .int 9)] :=
  c6_cache_key_ignores_environment.2 (eval 0) (eval 3) (.int 1 loc0) [.int 2]
    [("a", Value.int 1)] [("a", Value.int 2)]
    [((.int 1 loc0, ["Int(2)"]), .int 9)] (.int 1 loc0, ["Int(2)"]) (.int 9) rfl rfl

/-- C8: `&&`/`||` compute boolean AND/OR on `Bool/Bool` operands; any
other pairing fails with category "invalid binary operation" and the
only-booleans detail; and both operands of a binary expression are
evaluated eagerly before the operator runs, so an error in the
right-hand operand propagates even when the left operand alone would
determine the result. -/
theorem c8_logic_ops_eager :
    (∀ (b1 b2 : Bool) (location : Location),
      Value.and (.bool b1) (.bool b2) location = some (.ok (.bool (b1 && b2)))
      ∧ Value.or (.bool b1) (.bool b2) location = some (.ok (.bool (b1 || b2))))
    ∧ (∀ (v w : Value) (location : Location),
      (∀ b1 b2 : Bool, ¬(v = .bool b1 ∧ w = .bool b2)) →
      Value.and v w location = some (.error ⟨"invalid binary operation",
        "only booleans can be used on short-circuit operations", location⟩)
      ∧ Value.or v w location = some (.error ⟨"invalid binary operation",
        "only booleans can be used on short-circuit operations", location⟩))
    ∧ (∀ (fuel : Nat) (lhs rhs : Term) (op : BinaryOp) (location : Location)
        (context : Context) (cache : Cache) (v : Value) (cache1 : Cache)
        (out1 : List String) (e : RuntimeError) (cache2 : Cache) (out2 : List String),
      eval fuel lhs context cache = some (.ok v, cache1, out1) →
      eval fuel rhs context cache1 = some (.error e, cache2, out2) →
      eval (fuel + 1) (.binary lhs op rhs location) context cache
        = some (.error e, cache2, out1 ++ out2)) := by
  refine ⟨fun b1 b2 location => ⟨rfl, rfl⟩, ?_, ?_⟩
  · intro v w location h
    constructor <;>
      (cases v <;> cases w <;> first
        | rfl
        | exact absurd ⟨rfl, rfl⟩ (h _ _))
  · intro fuel lhs rhs op location context cache v cache1 out1 e cache2 out2 h1 h2
    rw [eval_succ]
    simp only [evalStep, h1, h2]

theorem c8_logic_ops_eager_witness :
    eval 2 (.binary (.bool false loc0) .and (.var ⟨"z", loc0⟩) loc0) [] []
      = some (.error ⟨"unbound variable \"z\"",
          "variable \"z\" was not defined in the current scope", loc0⟩, [], []) :=
  c8_logic_ops_eager.2.2 1 (.bool false loc0) (.var ⟨"z", loc0⟩) .and loc0 [] []
    (.bool false) [] [] ⟨"unbound variable \"z\"",
      "variable \"z\" was not defined in the current scope", loc0⟩ [] [] rfl rfl

/-- C10: key derivation aborts only for a top-level closure argument: a
tuple argument embedding a closure hashes through its textual
rendering, in which every closure prints as the fixed token
`[closure]`, so a key is produced; two tuple arguments differing only
in the embedded closure derive the same key, and a call whose tuple
argument embeds one closure can be answered from the cache entry
stored for the other. -/
theorem c10_tuple_embedded_closures :
    (∀ (body : Term) (p1 : List Var) (b1 : Term) (x1 : Context)
        (p2 : List Var) (b2 : Term) (x2 : Context) (w : Value),
      cache_key body [.tuple (.closure p1 b1 x1) w]
        = cache_key body [.tuple (.closure p2 b2 x2) w]
      ∧ ∃ key, cache_key body [.tuple (.closure p1 b1 x1) w] = some key)
    ∧ (∀ (p : List Var) (b : Term) (x : Context),
      Value.display (.closure p b x) = "[closure]")
    ∧ (∀ (evalF : Term → Context → Cache → Option EvalResult) (body : Term)
        (p1 : List Var) (b1 : Term) (x1 : Context)
        (p2 : List Var) (b2 : Term) (x2 : Context) (w : Value)
        (context : Context) (cache : Cache) (key : CacheKey) (v : Value),
      cache_key body [.tuple (.closure p1 b1 x1) w] = some key →
      cache.get key = some v →
      memo_eval evalF body [.tuple (.closure p2 b2 x2) w] context cache
        = some (.ok v, cache, [])) := by
  have hkey : ∀ (body : Term) (p : List Var) (b : Term) (x : Context) (w : Value),
      cache_key body [.tuple (.closure p b x) w]
        = some (body,
            ["Tuple(" ++ "(" ++ "[closure]" ++ ", " ++ w.display ++ ")" ++ ")"]) := by
    intro body p b x w
    rfl
  refine ⟨?_, fun p b x => rfl, ?_⟩
  · intro body p1 b1 x1 p2 b2 x2 w
    exact ⟨(hkey body p1 b1 x1 w).trans (hkey body p2 b2 x2 w).symm,
      _, hkey body p1 b1 x1 w⟩
  · intro evalF body p1 b1 x1 p2 b2 x2 w context cache key v hk hv
    have h2 : cache_key body [.tuple (.closure p2 b2 x2) w] = some key := by
      rw [hkey body p2 b2 x2 w, ← hkey body p1 b1 x1 w]
      exact hk
    exact memo_eval_hit evalF body _ context cache key v h2 hv

theorem c10_tuple_embedded_closures_witness :
    memo_eval (eval 0) (.int 3 loc0)
        [.tuple (.closure [⟨"a", loc0⟩] (.int 1 loc0) []) (.int 4)] []
        [(((.int 3 loc0), ["Tuple(([closure], 4))"]), .int 9)]
      = some (.ok (.int 9),
          [(((.int 3 loc0), ["Tuple(([closure], 4))"]), .int 9)], []) :=
  c10_tuple_embedded_closures.2.2 (eval 0) (.int 3 loc0)
    [] (.int 2 loc0) [] [⟨"a", loc0⟩] (.int 1 loc0) [] (.int 4) []
    [(((.int 3 loc0), ["Tuple(([closure], 4))"]), .int 9)]
    ((.int 3 loc0), ["Tuple(([closure], 4))"]) (.int 9) rfl rfl

theorem frag_some : ∀ (fuel : Nat) (t : Term) (s : Interpreter)
    (r : Except RuntimeError Value) (cache1 : Cache) (out1 : List String),
    noLetCall t = true →
    eval fuel t s.context s.cache = some (r, cache1, out1) →
    ∃ d, tramp_eval fuel t s = some (r, ⟨s.context, cache1⟩, out1, d) := by
  intro fuel
  induction fuel with
  | zero =>
    intro t s r c1 o1 _ h
    exact absurd h (by simp [eval])
  | succ fuel ih =>
    intro t s r c1 o1 hnc h
    rw [eval_succ] at h
    rw [tramp_succ]
    cases t with
    | lett n v x l => simp [noLetCall] at hnc
    | call c a l => simp [noLetCall] at hnc
    | int v l =>
      simp only [evalStep, Option.some.injEq, Prod.mk.injEq] at h
      obtain ⟨rfl, rfl, rfl⟩ := h
      exact ⟨0, rfl⟩
    | str v l =>
      simp only [evalStep, Option.some.injEq, Prod.mk.injEq] at h
      obtain ⟨rfl, rfl, rfl⟩ := h
      exact ⟨0, rfl⟩
    | bool v l =>
      simp only [evalStep, Option.some.injEq, Prod.mk.injEq] at h
      obtain ⟨rfl, rfl, rfl⟩ := h
      exact ⟨0, rfl⟩
    | function p v l =>
      simp only [evalStep, Option.some.injEq, Prod.mk.injEq] at h
      obtain ⟨rfl, rfl, rfl⟩ := h
      exact ⟨0, rfl⟩
    | var v =>
      cases hv : Context.get s.context v.text with
      | some value =>
        simp only [evalStep, hv, Option.some.injEq, Prod.mk.injEq] at h
        obtain ⟨rfl, rfl, rfl⟩ := h
        exact ⟨0, by simp [trampStep, hv]⟩
      | none =>
        simp only [evalStep, hv, Option.some.injEq, Prod.mk.injEq] at h
        obtain ⟨rfl, rfl, rfl⟩ := h
        exact ⟨0, by simp [trampStep, hv]⟩
    | if_ c t o l =>
      rw [noLetCall, Bool.and_eq_true, Bool.and_eq_true] at hnc
      obtain ⟨⟨hc1, hc2⟩, hc3⟩ := hnc
      cases he : eval fuel c s.context s.cache with
      | none => simp only [evalStep, he] at h; exact Option.noConfusion h
      | some y =>
        obtain ⟨rc, cc, oc⟩ := y
        cases rc with
        | error e =>
          obtain ⟨d, hd⟩ := ih c s (.error e) cc oc hc1 he
          simp only [evalStep, he, Option.some.injEq, Prod.mk.injEq] at h
          obtain ⟨rfl, rfl, rfl⟩ := h
          exact ⟨d + 1, by simp [trampStep, hd]⟩
        | ok cv =>
          obtain ⟨d, hd⟩ := ih c s (.ok cv) cc oc hc1 he
          cases cv
          case bool b =>
            cases hb : eval fuel (if b then t else o) s.context cc with
            | none => simp only [evalStep, he, hb] at h; exact Option.noConfusion h
            | some y2 =>
              obtain ⟨rb, cb, ob⟩ := y2
              simp only [evalStep, he, hb, Option.some.injEq, Prod.mk.injEq] at h
              obtain ⟨rfl, rfl, rfl⟩ := h
              have hbr : noLetCall (if b then t else o) = true := by
                cases b <;> simp [hc2, hc3]
              obtain ⟨d2, hd2⟩ := ih (if b then t else o) ⟨s.context, cc⟩ rb cb ob hbr hb
              exact ⟨max (d + 1) d2, by simp [trampStep, hd, hd2]⟩
          all_goals
            simp only [evalStep, he, Option.some.injEq, Prod.mk.injEq] at h
          all_goals
            obtain ⟨rfl, rfl, rfl⟩ := h
          all_goals
            exact ⟨d + 1, by simp [trampStep, hd]⟩
    | binary lhs op rhs l =>
      rw [noLetCall, Bool.and_eq_true] at hnc
      obtain ⟨hl, hr⟩ := hnc
      cases he1 : eval fuel lhs s.context s.cache with
      | none => simp only [evalStep, he1] at h; exact Option.noConfusion h
      | some y =>
        obtain ⟨r1, ca, oa⟩ := y
        cases r1 with
        | error e =>
          obtain ⟨d, hd⟩ := ih lhs s (.error e) ca oa hl he1
          simp only [evalStep, he1, Option.some.injEq, Prod.mk.injEq] at h
          obtain ⟨rfl, rfl, rfl⟩ := h
          exact ⟨d + 1, by simp [trampStep, hd]⟩
        | ok va =>
          obtain ⟨d1, hd1⟩ := ih lhs s (.ok va) ca oa hl he1
          cases he2 : eval fuel rhs s.context ca with
          | none => simp only [evalStep, he1, he2] at h; exact Option.noConfusion h
          | some y2 =>
            obtain ⟨r2, cb, ob⟩ := y2
            cases r2 with
            | error e =>
              obtain ⟨d2, hd2⟩ := ih rhs ⟨s.context, ca⟩ (.error e) cb ob hr he2
              simp only [evalStep, he1, he2, Option.some.injEq, Prod.mk.injEq] at h
              obtain ⟨rfl, rfl, rfl⟩ := h
              exact ⟨max (d1 + 1) (d2 + 1), by simp [trampStep, hd1, hd2]⟩
            | ok vb =>
              obtain ⟨d2, hd2⟩ := ih rhs ⟨s.context, ca⟩ (.ok vb) cb ob hr he2
              cases hop : eval_binary_op op va vb lhs.location with
              | none => simp only [evalStep, he1, he2, hop] at h; exact Option.noConfusion h
              | some rr =>
                simp only [evalStep, he1, he2, hop, Option.some.injEq, Prod.mk.injEq] at h
                obtain ⟨rfl, rfl, rfl⟩ := h
                exact ⟨max (d1 + 1) (d2 + 1), by simp [trampStep, hd1, hd2, hop]⟩
    | tuple tf ts l =>
      rw [noLetCall, Bool.and_eq_true] at hnc
      obtain ⟨hl, hr⟩ := hnc
      cases he1 : eval fuel tf s.context s.cache with
      | none => simp only [evalStep, he1] at h; exact Option.noConfusion h
      | some y =>
        obtain ⟨r1, ca, oa⟩ := y
        cases r1 with
        | error e =>
          obtain ⟨d, hd⟩ := ih tf s (.error e) ca oa hl he1
          simp only [evalStep, he1, Option.some.injEq, Prod.mk.injEq] at h
          obtain ⟨rfl, rfl, rfl⟩ := h
          exact ⟨d + 1, by simp [trampStep, hd]⟩
        | ok va =>
          obtain ⟨d1, hd1⟩ := ih tf s (.ok va) ca oa hl he1
          cases he2 : eval fuel ts s.context ca with
          | none => simp only [evalStep, he1, he2] at h; exact Option.noConfusion h
          | some y2 =>
            obtain ⟨r2, cb, ob⟩ := y2
            cases r2 with
            | error e =>
              obtain ⟨d2, hd2⟩ := ih ts ⟨s.context, ca⟩ (.error e) cb ob hr he2
              simp only [evalStep, he1, he2, Option.some.injEq, Prod.mk.injEq] at h
              obtain ⟨rfl, rfl, rfl⟩ := h
              exact ⟨max (d1 + 1) (d2 + 1), by simp [trampStep, hd1, hd2]⟩
            | ok vb =>
              obtain ⟨d2, hd2⟩ := ih ts ⟨s.context, ca⟩ (.ok vb) cb ob hr he2
              simp only [evalStep, he1, he2, Option.some.injEq, Prod.mk.injEq] at h
              obtain ⟨rfl, rfl, rfl⟩ := h
              exact ⟨max (d1 + 1) (d2 + 1), by simp [trampStep, hd1, hd2]⟩
    | first v l =>
      rw [noLetCall] at hnc
      cases he : eval fuel v s.context s.cache with
      | none => simp only [evalStep, he] at h; exact Option.noConfusion h
      | some y =>
        obtain ⟨rv, cv, ov⟩ := y
        cases rv with
        | error e =>
          obtain ⟨d, hd⟩ := ih v s (.error e) cv ov hnc he
          simp only [evalStep, he, Option.some.injEq, Prod.mk.injEq] at h
          obtain ⟨rfl, rfl, rfl⟩ := h
          exact ⟨d + 1, by simp [trampStep, hd]⟩
        | ok vv =>
          obtain ⟨d, hd⟩ := ih v s (.ok vv) cv ov hnc he
          cases vv
          all_goals
            simp only [evalStep, he, Option.some.injEq, Prod.mk.injEq] at h
          all_goals
            obtain ⟨rfl, rfl, rfl⟩ := h
          all_goals
            exact ⟨d + 1, by simp [trampStep, hd]⟩
    | second v l =>
      rw [noLetCall] at hnc
      cases he : eval fuel v s.context s.cache with
      | none => simp only [evalStep, he] at h; exact Option.noConfusion h
      | some y =>
        obtain ⟨rv, cv, ov⟩ := y
        cases rv with
        | error e =>
          obtain ⟨d, hd⟩ := ih v s (.error e) cv ov hnc he
          simp only [evalStep, he, Option.some.injEq, Prod.mk.injEq] at h
          obtain ⟨rfl, rfl, rfl⟩ := h
          exact ⟨d + 1, by simp [trampStep, hd]⟩
        | ok vv =>
          obtain ⟨d, hd⟩ := ih v s (.ok vv) cv ov hnc he
          cases vv
          all_goals
            simp only [evalStep, he, Option.some.injEq, Prod.mk.injEq] at h
          all_goals
            obtain ⟨rfl, rfl, rfl⟩ := h
          all_goals
            exact ⟨d + 1, by simp [trampStep, hd]⟩
    | print v l =>
      rw [noLetCall] at hnc
      cases he : eval fuel v s.context s.cache with
      | none => simp only [evalStep, he] at h; exact Option.noConfusion h
      | some y =>
        obtain ⟨rv, cv, ov⟩ := y
        cases rv with
        | error e =>
          obtain ⟨d, hd⟩ := ih v s (.error e) cv ov hnc he
          simp only [evalStep, he, Option.some.injEq, Prod.mk.injEq] at h
          obtain ⟨rfl, rfl, rfl⟩ := h
          exact ⟨d + 1, by simp [trampStep, hd]⟩
        | ok vv =>
          obtain ⟨d, hd⟩ := ih v s (.ok vv) cv ov hnc he
          simp only [evalStep, he, Option.some.injEq, Prod.mk.injEq] at h
          obtain ⟨rfl, rfl, rfl⟩ := h
          exact ⟨d + 1, by simp [trampStep, hd]⟩
theorem frag_none : ∀ (fuel : Nat) (t : Term) (s : Interpreter),
    noLetCall t = true → eval fuel t s.context s.cache = none →
    tramp_eval fuel t s = none := by
  intro fuel
  induction fuel with
  | zero => intro t s _ _; rfl
  | succ fuel ih =>
    intro t s hnc h
    rw [eval_succ] at h
    rw [tramp_succ]
    cases t with
    | lett n v x l => simp [noLetCall] at hnc
    | call c a l => simp [noLetCall] at hnc
    | int v l => simp only [evalStep] at h; exact Option.noConfusion h
    | str v l => simp only [evalStep] at h; exact Option.noConfusion h
    | bool v l => simp only [evalStep] at h; exact Option.noConfusion h
    | function p v l => simp only [evalStep] at h; exact Option.noConfusion h
    | var v =>
      cases hv : Context.get s.context v.text <;>
        (simp only [evalStep, hv] at h; exact Option.noConfusion h)
    | if_ c t o l =>
      rw [noLetCall, Bool.and_eq_true, Bool.and_eq_true] at hnc
      obtain ⟨⟨hc1, hc2⟩, hc3⟩ := hnc
      cases he : eval fuel c s.context s.cache with
      | none =>
        have hd := ih c s hc1 he
        simp [trampStep, hd]
      | some y =>
        obtain ⟨rc, cc, oc⟩ := y
        cases rc with
        | error e => simp only [evalStep, he] at h; exact Option.noConfusion h
        | ok cv =>
          cases cv
          case bool b =>
            obtain ⟨d, hd⟩ := frag_some fuel c s (.ok (.bool b)) cc oc hc1 he
            cases hb : eval fuel (if b then t else o) s.context cc with
            | none =>
              have hbr : noLetCall (if b then t else o) = true := by
                cases b <;> simp [hc2, hc3]
              have hd2 := ih (if b then t else o) ⟨s.context, cc⟩ hbr hb
              simp [trampStep, hd, hd2]
            | some y2 =>
              obtain ⟨rb, cb, ob⟩ := y2
              cases rb <;>
                (simp only [evalStep, he, hb] at h; exact Option.noConfusion h)
          all_goals
            simp only [evalStep, he] at h
          all_goals
            exact Option.noConfusion h
    | binary lhs op rhs l =>
      rw [noLetCall, Bool.and_eq_true] at hnc
      obtain ⟨hl, hr⟩ := hnc
      cases he1 : eval fuel lhs s.context s.cache with
      | none =>
        have hd1 := ih lhs s hl he1
        simp [trampStep, hd1]
      | some y =>
        obtain ⟨r1, ca, oa⟩ := y
        cases r1 with
        | error e => simp only [evalStep, he1] at h; exact Option.noConfusion h
        | ok va =>
          obtain ⟨d1, hd1⟩ := frag_some fuel lhs s (.ok va) ca oa hl he1
          cases he2 : eval fuel rhs s.context ca with
          | none =>
            have hd2 := ih rhs ⟨s.context, ca⟩ hr he2
            simp [trampStep, hd1, hd2]
          | some y2 =>
            obtain ⟨r2, cb, ob⟩ := y2
            cases r2 with
            | error e => simp only [evalStep, he1, he2] at h; exact Option.noConfusion h
            | ok vb =>
              obtain ⟨d2, hd2⟩ := frag_some fuel rhs ⟨s.context, ca⟩ (.ok vb) cb ob hr he2
              cases hop : eval_binary_op op va vb lhs.location with
              | none => simp [trampStep, hd1, hd2, hop]
              | some rr =>
                simp only [evalStep, he1, he2, hop] at h
                exact Option.noConfusion h
    | tuple tf ts l =>
      rw [noLetCall, Bool.and_eq_true] at hnc
      obtain ⟨hl, hr⟩ := hnc
      cases he1 : eval fuel tf s.context s.cache with
      | none =>
        have hd1 := ih tf s hl he1
        simp [trampStep, hd1]
      | some y =>
        obtain ⟨r1, ca, oa⟩ := y
        cases r1 with
        | error e => simp only [evalStep, he1] at h; exact Option.noConfusion h
        | ok va =>
          obtain ⟨d1, hd1⟩ := frag_some fuel tf s (.ok va) ca oa hl he1
          cases he2 : eval fuel ts s.context ca with
          | none =>
            have hd2 := ih ts ⟨s.context, ca⟩ hr he2
            simp [trampStep, hd1, hd2]
          | some y2 =>
            obtain ⟨r2, cb, ob⟩ := y2
            cases r2 <;>
              (simp only [evalStep, he1, he2] at h; exact Option.noConfusion h)
    | first v l =>
      rw [noLetCall] at hnc
      cases he : eval fuel v s.context s.cache with
      | none =>
        have hd := ih v s hnc he
        simp [trampStep, hd]
      | some y =>
        obtain ⟨rv, cv, ov⟩ := y
        cases rv with
        | error e => simp only [evalStep, he] at h; exact Option.noConfusion h
        | ok vv =>
          cases vv <;>
            (simp only [evalStep, he] at h; exact Option.noConfusion h)
    | second v l =>
      rw [noLetCall] at hnc
      cases he : eval fuel v s.context s.cache with
      | none =>
        have hd := ih v s hnc he
        simp [trampStep, hd]
      | some y =>
        obtain ⟨rv, cv, ov⟩ := y
        cases rv with
        | error e => simp only [evalStep, he] at h; exact Option.noConfusion h
        | ok vv =>
          cases vv <;>
            (simp only [evalStep, he] at h; exact Option.noConfusion h)
    | print v l =>
      rw [noLetCall] at hnc
      cases he : eval fuel v s.context s.cache with
      | none =>
        have hd := ih v s hnc he
        simp [trampStep, hd]
      | some y =>
        obtain ⟨rv, cv, ov⟩ := y
        cases rv <;>
          (simp only [evalStep, he] at h; exact Option.noConfusion h)

/-- C7 counterexample: on the program
`let z = 5; let g = () => { let z = 1; z }; let a = g(); z` the
recursive engine returns `Int(5)` while the trampoline engine returns
`Int(1)` — the trampoline's in-place context replacement by the call
body's `let z = 1`, never restored after the call, leaks into the
final lookup of `z`. -/
theorem c7_engines_differ :
    (eval_file 12 leakProg).map (fun r => r.1) = some (.ok (.int 5))
    ∧ (forget (interp_eval_file 12 leakProg)).map (fun r => r.1) = some (.ok (.int 1))
    ∧ (some (Except.ok (Value.int 5)) : Option (Except RuntimeError Value))
        ≠ some (.ok (.int 1)) := by
  refine ⟨rfl, rfl, ?_⟩
  intro hc
  simp only [Option.some.injEq, Except.ok.injEq, Value.int.injEq] at hc
  exact absurd hc (by decide)

/-- C7 (amended): the two engines agree (same outcome, same cache, same
print output, and the trampoline's context left unchanged) on every
program containing no `Let` and no `Call` node; the equivalence fails
in general — see the counterexample, where the trampoline's context
replacement at `Let` and `Call` changes the program's result. -/
theorem c7_fragment_equivalence (fuel : Nat) (t : Term) (s : Interpreter)
    (hnc : noLetCall t = true) :
    forget (tramp_eval fuel t s)
      = (eval fuel t s.context s.cache).map (fun x => (x.1, s.context, x.2.1, x.2.2)) := by
  cases h : eval fuel t s.context s.cache with
  | none => rw [frag_none fuel t s hnc h]; rfl
  | some y =>
    obtain ⟨r, c1, o1⟩ := y
    obtain ⟨d, hd⟩ := frag_some fuel t s r c1 o1 hnc h
    rw [hd]
    rfl

theorem c7_fragment_equivalence_witness :
    forget (tramp_eval 3 (.binary (.int 1 loc0) .add (.int 2 loc0) loc0) ⟨[], []⟩)
      = (eval 3 (.binary (.int 1 loc0) .add (.int 2 loc0) loc0) [] []).map
          (fun x => (x.1, ([] : Context), x.2.1, x.2.2)) :=
  c7_fragment_equivalence 3 (.binary (.int 1 loc0) .add (.int 2 loc0) loc0) ⟨[], []⟩ rfl

/-- The closure bound to `f` in `loopProg` (created under the empty
top-level context). -/
def loopClosure : Value := .closure [⟨"n", loc0⟩] loopBody []

theorem tramp_int_eval (f : Nat) (z : Int) (l : Location) (s : Interpreter) :
    tramp_eval (f + 1) (.int z l) s = some (.ok (.int z), s, [], 0) := rfl

theorem tramp_function_eval (f : Nat) (p : List Var) (v : Term) (l : Location)
    (s : Interpreter) :
    tramp_eval (f + 1) (.function p v l) s
      = some (.ok (.closure p v s.context), s, [], 0) := rfl

theorem tramp_var_some (f : Nat) (v : Var) (s : Interpreter) (W : Value)
    (h : Context.get s.context v.text = some W) :
    tramp_eval (f + 1) (.var v) s = some (.ok W, s, [], 0) := by
  rw [tramp_succ]
  simp only [trampStep, h]

theorem eval_int_eval (f : Nat) (z : Int) (l : Location) (ctx : Context) (cache : Cache) :
    eval (f + 1) (.int z l) ctx cache = some (.ok (.int z), cache, []) := rfl

theorem eval_var_some (f : Nat) (v : Var) (ctx : Context) (cache : Cache) (W : Value)
    (h : Context.get ctx v.text = some W) :
    eval (f + 1) (.var v) ctx cache = some (.ok W, cache, []) := by
  rw [eval_succ]
  simp only [evalStep, h]

/-- The loop's condition `n == 0` evaluated by the trampoline engine. -/
theorem loop_cond_eval (f : Nat) (ctx : Context) (cache : Cache) (z : Int)
    (hn : Context.get ctx ("n") = some (.int z)) :
    tramp_eval (f + 2) (.binary (.var ⟨"n", loc0⟩) .eq (.int 0 loc0) loc0) ⟨ctx, cache⟩
      = some (.ok (.bool (z == (0 : Int))), ⟨ctx, cache⟩, [], 1) := by
  rw [tramp_succ]
  simp only [trampStep,
    tramp_var_some f ⟨"n", loc0⟩ ⟨ctx, cache⟩ (Value.int z) hn,
    tramp_int_eval f (0 : Int) loc0 ⟨ctx, cache⟩,
    eval_binary_op, Value.eq, Term.location]
  rfl

/-- The loop's argument `n - 1` evaluated by the recursive engine (as
`bounce_call` does for arguments). -/
theorem loop_arg_eval (f : Nat) (ctx : Context) (cache : Cache) (z : Int)
    (hn : Context.get ctx ("n") = some (.int z)) :
    eval (f + 2) (.binary (.var ⟨"n", loc0⟩) .sub (.int 1 loc0) loc0) ctx cache
      = some (.ok (.int (wrap64 (z - 1))), cache, []) := by
  rw [eval_succ]
  simp only [evalStep,
    eval_var_some f ⟨"n", loc0⟩ ctx cache (Value.int z) hn,
    eval_int_eval f (1 : Int) loc0 ctx,
    eval_binary_op, Value.sub, Term.location]
  rfl

/-- One level of the pure self-recursive call on the trampoline engine:
the callee resolves through the caller's context, the argument is
`n - 1`, `is_pure` classifies the `If` body pure, `Interpreter::memo_eval`
misses on the empty cache, and the body runs inside a nested native
`run` — one more native nesting level than the body's own. -/
theorem loop_call_step (g : Nat) (ctx : Context) (z : Int) (S : Interpreter) (D : Nat)
    (hn : Context.get ctx ("n") = some (Value.int z))
    (hf : Context.get ctx ("f") = some loopClosure)
    (hbody : tramp_eval (g + 2) loopBody ⟨("n", Value.int (wrap64 (z - 1))) :: ctx, []⟩
      = some (.ok (.int 0), S, [], D)) :
    tramp_eval (g + 3)
        (.call (.var ⟨"f", loc0⟩)
          [.binary (.var ⟨"n", loc0⟩) .sub (.int 1 loc0) loc0] loc0)
        ⟨ctx, []⟩
      = some (.ok (.int 0),
          ⟨S.context, S.cache.insert
            (loopBody, ["Int(" ++ toString (wrap64 (z - 1)) ++ ")"]) (.int 0)⟩,
          [], max 1 (D + 1)) := by
  have hf' : Context.get ctx ("f")
      = some (Value.closure [⟨"n", loc0⟩] loopBody []) := hf
  have hcallee : tramp_eval (g + 2) (.var ⟨"f", loc0⟩) ⟨ctx, []⟩
      = some (.ok (Value.closure [⟨"n", loc0⟩] loopBody []), ⟨ctx, []⟩, [], 0) :=
    tramp_var_some (g + 1) ⟨"f", loc0⟩ ⟨ctx, []⟩ _ hf'
  rw [tramp_succ]
  simp only [trampStep, hcallee, Context.union, List.nil_append, eval_arguments,
    loop_arg_eval g ctx ([] : Cache) z hn, update_context, Context.update,
    (show is_pure loopBody = true from rfl), reduceIte, interp_memo_eval, cache_key,
    hash_arguments, Value.hashStr, Cache.get, hbody, List.append_nil]

theorem loop_spine : ∀ (n : Nat) (m : Nat) (ctx : Context),
    n < 2 ^ 63 →
    Context.get ctx ("n") = some (.int (n : Int)) →
    Context.get ctx ("f") = some loopClosure →
    ∃ (s' : Interpreter) (d : Nat),
      tramp_eval (m + 2 * n + 5) loopBody ⟨ctx, []⟩
        = some (.ok (.int 0), s', [], d) ∧ n ≤ d := by
  intro n
  induction n with
  | zero =>
    intro m ctx _ hn hf
    simp only [Nat.cast_zero] at hn
    have hb : ((0 : Int) == (0 : Int)) = true := rfl
    simp only [Nat.mul_zero, Nat.add_zero, loopBody, tramp_succ, trampStep, eval_succ,
      evalStep, eval_binary_op, Value.eq, hn, hb, reduceIte]
    exact ⟨_, _, rfl, Nat.zero_le _⟩
  | succ k ihk =>
    intro m ctx hlt hn hf
    have harith : m + 2 * (k + 1) + 5 = m + 2 * k + 6 + 1 := by ring
    have hb : (((k + 1 : ℕ) : Int) == (0 : Int)) = false := by
      rw [beq_eq_false_iff_ne]
      push_cast
      omega
    have hw : wrap64 (((k + 1 : ℕ) : Int) - 1) = (k : Int) := by
      have e63 : (2 : Int) ^ 63 = 9223372036854775808 := by norm_num
      have e63n : (2 : ℕ) ^ 63 = 9223372036854775808 := by norm_num
      rw [wrap64_eq_self _ (by push_cast; omega) (by push_cast; omega)]
      push_cast
      ring
    obtain ⟨s'', d', hd', hkd'⟩ := ihk m (("n", Value.int (k : Int)) :: ctx)
      (by omega)
      (by simp [Context.get])
      (by simp [Context.get, hf])
    have hbody : tramp_eval (m + 2 * k + 3 + 2) loopBody
        ⟨("n", Value.int (wrap64 (((k + 1 : ℕ) : Int) - 1))) :: ctx, []⟩
        = some (.ok (.int 0), s'', [], d') := by
      rw [hw]
      exact hd'
    have hcall : tramp_eval (m + 2 * k + 6)
        (.call (.var ⟨"f", loc0⟩)
          [.binary (.var ⟨"n", loc0⟩) .sub (.int 1 loc0) loc0] loc0)
        ⟨ctx, []⟩
        = some (.ok (.int 0),
            ⟨s''.context, s''.cache.insert
              (loopBody,
                ["Int(" ++ toString (wrap64 (((k + 1 : ℕ) : Int) - 1)) ++ ")"])
              (.int 0)⟩,
            [], max 1 (d' + 1)) :=
      loop_call_step (m + 2 * k + 3) ctx (((k + 1 : ℕ) : Int)) s'' d' hn hf hbody
    have hcond : tramp_eval (m + 2 * k + 6)
        (.binary (.var ⟨"n", loc0⟩) .eq (.int 0 loc0) loc0) ⟨ctx, []⟩
        = some (.ok (.bool ((((k + 1 : ℕ) : Int)) == (0 : Int))), ⟨ctx, []⟩, [], 1) :=
      loop_cond_eval (m + 2 * k + 4) ctx [] _ hn
    have hbranch : (if (false : Bool) = true then Term.int 0 loc0
        else Term.call (Term.var ⟨"f", loc0⟩)
          [Term.binary (Term.var ⟨"n", loc0⟩) BinaryOp.sub (Term.int 1 loc0) loc0] loc0)
        = Term.call (Term.var ⟨"f", loc0⟩)
          [Term.binary (Term.var ⟨"n", loc0⟩) BinaryOp.sub (Term.int 1 loc0) loc0] loc0 :=
      rfl
    rw [harith, tramp_succ]
    simp only [loopBody, trampStep, hcond, hb, hbranch, hcall, reduceIte]
    refine ⟨_, _, rfl, ?_⟩
    omega

/-- C2: the trampoline engine is not stack-safe on tail self-recursion.
A function whose body is an `If` tail-calling itself is classified pure
(`is_pure` only rejects a syntactic `Print` body), so every recursive
call goes through `Interpreter::memo_eval`, which on each cache miss
evaluates the body via a nested native `self.eval(body).run()`.  For
`let f = (n) => if n == 0 { 0 } else { f(n - 1) }; f(N)` the engine
completes with value 0, but the maximal nesting of native
`Trampoline::run` invocations — a lower bound on native stack growth —
is at least `N`, for every `N`: native stack usage grows linearly with
the number of logical steps instead of staying bounded. -/
theorem c2_loop_native_depth_unbounded (N : Nat) (hN : N < 2 ^ 63) :
    ∃ (fuel : Nat) (s : Interpreter) (d : Nat),
      interp_eval_file fuel (loopProg N) = some (.ok (.int 0), s, [], d) ∧ N ≤ d := by
  obtain ⟨s', d', hd', hNd'⟩ := loop_spine N 1
    (("n", Value.int (N : Int)) :: [("f", Value.closure [⟨"n", loc0⟩] loopBody [])])
    hN
    (by simp [Context.get])
    (by simp [Context.get, loopClosure])
  rw [show 1 + 2 * N + 5 = 2 * N + 6 from by ring] at hd'
  have hfn : tramp_eval (2 * N + 7) (.function [⟨"n", loc0⟩] loopBody loc0)
      (⟨[], []⟩ : Interpreter)
      = some (.ok (Value.closure [⟨"n", loc0⟩] loopBody []), ⟨[], []⟩, [], 0) :=
    tramp_function_eval (2 * N + 6) [⟨"n", loc0⟩] loopBody loc0 ⟨[], []⟩
  have hcallee : tramp_eval (2 * N + 6) (.var ⟨"f", loc0⟩)
      ⟨[("f", Value.closure [⟨"n", loc0⟩] loopBody [])], []⟩
      = some (.ok (Value.closure [⟨"n", loc0⟩] loopBody []),
          ⟨[("f", Value.closure [⟨"n", loc0⟩] loopBody [])], []⟩, [], 0) :=
    tramp_var_some (2 * N + 5) ⟨"f", loc0⟩ _ _ rfl
  have harg : eval (2 * N + 6) (.int (N : Int) loc0)
      ([("f", Value.closure [⟨"n", loc0⟩] loopBody [])] : Context) ([] : Cache)
      = some (.ok (.int (N : Int)), [], []) :=
    eval_int_eval (2 * N + 5) (N : Int) loc0 _ _
  refine ⟨2 * N + 8, ?_⟩
  rw [interp_eval_file, loopProg, tramp_succ]
  simp only [trampStep, hfn, Context.update]
  rw [tramp_succ]
  simp only [trampStep, hcallee, Context.union, List.nil_append, eval_arguments, harg,
    update_context, Context.update, (show is_pure loopBody = true from rfl), reduceIte,
    interp_memo_eval, cache_key, hash_arguments, Value.hashStr, Cache.get, hd',
    List.append_nil]
  refine ⟨_, _, rfl, ?_⟩
  omega

theorem c2_loop_native_depth_unbounded_witness :
    ∃ (fuel : Nat) (s : Interpreter) (d : Nat),
      interp_eval_file fuel (loopProg 3) = some (.ok (.int 0), s, [], d) ∧ 3 ≤ d :=
  c2_loop_native_depth_unbounded 3 (by norm_num)

